import Mathlib

/-!
# Verification of the rust-mir-checker diagnostics and driver layer

This file gives a shallow embedding, in Lean 4, of the diagnostics store,
the diagnostic emission pass, the compiler-driver entry point, the
definition-key mangling, and the path-to-type resolution of the
rust-mir-checker static analyzer, together with theorems settling the
frozen specification claims about those components.

Source files embedded:
* `src/analysis/diagnostics.rs` (causes, `Diagnostic`, `compare`, `Clone`)
* `src/analysis/analyzer/numerical_analysis.rs` (`emit_diagnostics`)
* `src/bin/mir-checker.rs` (`main`, argument preparation)
* `src/analysis/memory/utils.rs` (`summary_key_str`, `append_mangled_type`)
* `src/analysis/mir_visitor/type_visitor.rs` (`get_path_rustc_type`,
  `specialize_generic_argument_type`)

Rust source spans are modelled as natural numbers; a diagnostic's primary
span sequence is a `List Nat`, ordered lexicographically exactly as Rust's
`PartialOrd` on slices orders `&[Span]`.
-/

/-- Lexicographic comparison of span sequences.  This is the order used by
`Diagnostic::compare` via `x.builder.span.primary_spans().lt(...)` /
`.gt(...)`: Rust's `PartialOrd` on slices compares element-wise and makes a
strict prefix smaller. -/
def lexCompare : List Nat → List Nat → Ordering
  | [], [] => Ordering.eq
  | [], _ :: _ => Ordering.lt
  | _ :: _, [] => Ordering.gt
  | a :: as, b :: bs =>
    if a < b then Ordering.lt
    else if b < a then Ordering.gt
    else lexCompare as bs

theorem lexCompare_self (xs : List Nat) : lexCompare xs xs = Ordering.eq := by
  induction xs with
  | nil => rfl
  | cons a as ih => simp [lexCompare, ih]

theorem lexCompare_eq_iff (xs ys : List Nat) :
    lexCompare xs ys = Ordering.eq ↔ xs = ys := by
  induction xs generalizing ys with
  | nil => cases ys <;> simp [lexCompare]
  | cons a as ih =>
    cases ys with
    | nil => simp [lexCompare]
    | cons b bs =>
      by_cases hab : a < b
      · simp [lexCompare, hab]
        omega
      · by_cases hba : b < a
        · simp [lexCompare, hab, hba]
          omega
        · have : a = b := by omega
          subst this
          simp [lexCompare, ih]

theorem lexCompare_lt_iff_gt (xs ys : List Nat) :
    lexCompare xs ys = Ordering.lt ↔ lexCompare ys xs = Ordering.gt := by
  induction xs generalizing ys with
  | nil => cases ys <;> simp [lexCompare]
  | cons a as ih =>
    cases ys with
    | nil => simp [lexCompare]
    | cons b bs =>
      by_cases hab : a < b
      · have : ¬ b < a := by omega
        simp [lexCompare, hab, this]
      · by_cases hba : b < a
        · simp [lexCompare, hab, hba]
        · have : a = b := by omega
          subst this
          simp [lexCompare, hab, ih]

theorem lexCompare_lt_trans {xs ys zs : List Nat}
    (h1 : lexCompare xs ys = Ordering.lt) (h2 : lexCompare ys zs = Ordering.lt) :
    lexCompare xs zs = Ordering.lt := by
  induction xs generalizing ys zs with
  | nil =>
    cases zs with
    | nil => cases ys <;> simp_all [lexCompare]
    | cons c cs => simp [lexCompare]
  | cons a as ih =>
    cases ys with
    | nil => simp [lexCompare] at h1
    | cons b bs =>
      cases zs with
      | nil => simp [lexCompare] at h2
      | cons c cs =>
        by_cases hab : a < b <;> by_cases hbc : b < c
        · have hac : a < c := by omega
          simp [lexCompare, hac]
        · by_cases hcb : c < b
          · simp [lexCompare, hbc, hcb] at h2
          · have : b = c := by omega
            subst this
            have : ¬ b < a := by omega
            simp [lexCompare, hab]
        · by_cases hba : b < a
          · simp [lexCompare, hab, hba] at h1
          · have : a = b := by omega
            subst this
            simp [lexCompare, hbc]
        · by_cases hba : b < a
          · simp [lexCompare, hab, hba] at h1
          · by_cases hcb : c < b
            · simp [lexCompare, hbc, hcb] at h2
            · have hab' : a = b := by omega
              have hbc' : b = c := by omega
              subst hab'; subst hbc'
              simp [lexCompare, hab] at h1 h2 ⊢
              exact ih h1 h2

theorem lexCompare_cases (xs ys : List Nat) :
    lexCompare xs ys = Ordering.lt ∨ lexCompare xs ys = Ordering.eq ∨
      lexCompare xs ys = Ordering.gt := by
  cases h : lexCompare xs ys <;> simp

/-- `DiagnosticCause` from `src/analysis/diagnostics.rs`. -/
inductive DiagnosticCause where
  | bitwise    -- Bit-wise overflow
  | arithmetic -- Arithmetic overflow
  | assembly   -- Inline assembly
  | comparison -- Comparison operations
  | divZero    -- Division by zero / remainder by zero
  | memory     -- Memory-safety issues
  | panicCode  -- Run into panic code (`DiagnosticCause::Panic` in the source)
  | index      -- Out-of-bounds access
  | otherCause -- Other
deriving DecidableEq

/-- Severity level of a rustc `DiagnosticBuilder` (only the two levels the
analyzer works with are modelled). -/
inductive DiagLevel where
  | warning
  | error
deriving DecidableEq

/-- Model of the rustc `DiagnosticBuilder` as the analyzer observes it: a
severity level, the list of messages (each `some s` for a static string `s`,
or `none` for a message with no static string, mirroring
`DiagMessage::as_str` returning `None`), and the primary span sequence. -/
structure DiagBuilder where
  level : DiagLevel
  messages : List (Option String)
  spans : List Nat
deriving DecidableEq

/-- `Diagnostic` from `src/analysis/diagnostics.rs`. -/
structure Diagnostic where
  builder : DiagBuilder
  is_memory_safety : Bool
  cause : DiagnosticCause
deriving DecidableEq

/-- `Diagnostic::compare` (diagnostics.rs:95-112): compare by the primary
span sequences; `Less` when `x`'s spans are slice-`lt` `y`'s, `Greater`
when slice-`gt`, `Equal` otherwise. -/
def Diagnostic.compare (x y : Diagnostic) : Ordering :=
  if lexCompare x.builder.spans y.builder.spans = Ordering.lt then Ordering.lt
  else if lexCompare x.builder.spans y.builder.spans = Ordering.gt then Ordering.gt
  else Ordering.eq

/-- `impl Clone for Diagnostic` (diagnostics.rs:59-72): build a fresh
builder from the first message's static string (empty when there is no
message or no static string); keep `is_memory_safety` and `cause`. -/
def Diagnostic.clone (d : Diagnostic) : Diagnostic :=
  let msg : String :=
    match d.builder.messages.head? with
    | some m => m.getD ""
    | none => ""
  { builder := { level := d.builder.level, messages := [some msg], spans := [] },
    is_memory_safety := d.is_memory_safety,
    cause := d.cause }

/-- Modelled from the spec: "`deny_warnings` promotes all entries to error
severity".  The method `Diagnostic::upgrade_to_error` called by
`emit_diagnostics` is not among the provided source files. -/
def Diagnostic.upgrade_to_error (d : Diagnostic) : Diagnostic :=
  { d with builder := { d.builder with level := DiagLevel.error } }

/-- The fields of `AnalysisOption` consumed by `emit_diagnostics`. -/
structure AnalysisOption where
  deny_warnings : Bool
  suppressed_warnings : Option (List DiagnosticCause)
  memory_safety_only : Bool
deriving DecidableEq

/-- The non-strict sort relation used by
`diagnostics.sort_by(Diagnostic::compare)`: `x` may precede `y` unless
`compare x y = Greater`. -/
def diagLe (x y : Diagnostic) : Prop := Diagnostic.compare x y ≠ Ordering.gt

instance : DecidableRel diagLe := fun x y => by
  unfold diagLe; infer_instance

theorem compare_eq_gt_iff (x y : Diagnostic) :
    Diagnostic.compare x y = Ordering.gt ↔
      lexCompare x.builder.spans y.builder.spans = Ordering.gt := by
  unfold Diagnostic.compare
  rcases lexCompare_cases x.builder.spans y.builder.spans with h | h | h <;> simp [h]

theorem compare_eq_lt_iff (x y : Diagnostic) :
    Diagnostic.compare x y = Ordering.lt ↔
      lexCompare x.builder.spans y.builder.spans = Ordering.lt := by
  unfold Diagnostic.compare
  rcases lexCompare_cases x.builder.spans y.builder.spans with h | h | h <;> simp [h]

theorem compare_eq_eq_iff (x y : Diagnostic) :
    Diagnostic.compare x y = Ordering.eq ↔
      x.builder.spans = y.builder.spans := by
  unfold Diagnostic.compare
  rcases h : lexCompare x.builder.spans y.builder.spans with _ | _ | _
  · simp [h]
    intro he
    rw [he, lexCompare_self] at h
    cases h
  · rw [lexCompare_eq_iff] at h
    simp [lexCompare_self, h]
  · simp [h]
    intro he
    rw [he, lexCompare_self] at h
    cases h

theorem diagLe_iff (x y : Diagnostic) :
    diagLe x y ↔ lexCompare x.builder.spans y.builder.spans ≠ Ordering.gt := by
  unfold diagLe
  constructor
  · intro h hg
    exact h ((compare_eq_gt_iff x y).2 hg)
  · intro h hg
    exact h ((compare_eq_gt_iff x y).1 hg)

instance : IsTotal Diagnostic diagLe := by
  constructor
  intro a b
  simp only [diagLe_iff]
  rcases h : lexCompare a.builder.spans b.builder.spans with _ | _ | _
  · left; simp [h]
  · left; simp [h]
  · right
    rw [← lexCompare_lt_iff_gt] at h
    simp [h]

instance : IsTrans Diagnostic diagLe := by
  constructor
  intro a b c hab hbc
  simp only [diagLe_iff] at hab hbc ⊢
  rcases h1 : lexCompare a.builder.spans b.builder.spans with _ | _ | _
  · rcases h2 : lexCompare b.builder.spans c.builder.spans with _ | _ | _
    · simp [lexCompare_lt_trans h1 h2]
    · rw [lexCompare_eq_iff] at h2
      rw [← h2]
      simp [h1]
    · exact absurd h2 hbc
  · rw [lexCompare_eq_iff] at h1
    rw [h1]
    exact hbc
  · exact absurd h1 hab

/-- The outcome of `emit_diagnostics`: the diagnostics passed to
`DiagnosticBuilder::emit`, in emission order, and the diagnostics passed to
`DiagnosticBuilder::cancel`, in cancellation order. -/
structure EmitResult where
  emitted : List Diagnostic
  cancelled : List Diagnostic
deriving DecidableEq

/-- The first loop of `emit_diagnostics` (numerical_analysis.rs:50-57):
walk the sorted diagnostics; a diagnostic whose cause is in
`suppressed_warnings` is cancelled, the rest are pushed onto `res`.
Returns `(res, cancelled)`. -/
def suppressLoop (sw : List DiagnosticCause) :
    List Diagnostic → List Diagnostic × List Diagnostic
  | [] => ([], [])
  | d :: rest =>
    let (res, cans) := suppressLoop sw rest
    if sw.contains d.cause then (res, d :: cans) else (d :: res, cans)

/-- The second loop of `emit_diagnostics` when `memory_safety_only` is set
(numerical_analysis.rs:64-71): emit the memory-safety diagnostics, cancel
the others.  Returns `(emitted, cancelled)`. -/
def memLoop : List Diagnostic → List Diagnostic × List Diagnostic
  | [] => ([], [])
  | d :: rest =>
    let (em, cans) := memLoop rest
    if d.is_memory_safety then (d :: em, cans) else (em, d :: cans)

/-- The part of `emit_diagnostics` after `diagnostics.sort_by` (lines
48-77 of numerical_analysis.rs), as a function of the sorted vector. -/
def after_sort (opts : AnalysisOption) (sorted : List Diagnostic) : EmitResult :=
  let step1 :=
    match opts.suppressed_warnings with
    | some sw => suppressLoop sw sorted
    | none => (sorted, [])
  if opts.memory_safety_only then
    let step2 := memLoop step1.1
    { emitted := step2.1, cancelled := step1.2 ++ step2.2 }
  else
    { emitted := step1.1, cancelled := step1.2 }

/-- `NumericalAnalysis::emit_diagnostics` (numerical_analysis.rs:28-77).
`drained` is the sequence of per-function diagnostic vectors in the order
`self.context.diagnostics_for.map.into_values()` yields them; the values
are flattened, upgraded to errors when `deny_warnings` is set, stably
sorted by `Diagnostic::compare` (Rust's `sort_by` is a stable sort, and a
stable sort by a total preorder has a unique result, here given by
insertion sort), and then filtered by the two loops. -/
def emit_diagnostics (opts : AnalysisOption) (drained : List (List Diagnostic)) :
    EmitResult :=
  let diagnostics :=
    (drained.flatten).map
      (fun d => if opts.deny_warnings then d.upgrade_to_error else d)
  after_sort opts (List.insertionSort diagLe diagnostics)

theorem suppressLoop_eq_filter (sw : List DiagnosticCause) (l : List Diagnostic) :
    suppressLoop sw l =
      (l.filter (fun d => !(sw.contains d.cause)),
       l.filter (fun d => sw.contains d.cause)) := by
  induction l with
  | nil => rfl
  | cons d rest ih =>
    simp only [suppressLoop, ih]
    by_cases h : d.cause ∈ sw <;> simp [List.filter_cons, h]

theorem memLoop_eq_filter (l : List Diagnostic) :
    memLoop l =
      (l.filter (fun d => d.is_memory_safety),
       l.filter (fun d => !d.is_memory_safety)) := by
  induction l with
  | nil => rfl
  | cons d rest ih =>
    simp only [memLoop, ih]
    by_cases h : d.is_memory_safety = true <;> simp [List.filter_cons, h]

theorem perm_flatten_of_perm {α : Type} {l₁ l₂ : List (List α)} (h : l₁.Perm l₂) :
    l₁.flatten.Perm l₂.flatten := by
  induction h with
  | nil => exact List.Perm.refl _
  | cons x _ ih => exact ih.append_left x
  | swap x y l =>
    simp only [List.flatten_cons]
    rw [← List.append_assoc, ← List.append_assoc]
    exact (List.perm_append_comm).append_right _
  | trans _ _ ih1 ih2 => exact ih1.trans ih2

theorem filter_append_not_filter_perm {α : Type} (p : α → Bool) (l : List α) :
    (l.filter p ++ l.filter (fun a => !(p a))).Perm l := by
  induction l with
  | nil => exact List.Perm.refl _
  | cons a rest ih =>
    by_cases h : p a = true
    · simpa [List.filter_cons, h] using ih.cons a
    · simp only [List.filter_cons, h, Bool.not_eq_true', if_neg, Bool.not_false, if_pos]
      simp only [Bool.not_eq_true] at h
      exact (List.perm_middle.trans (ih.cons a))

theorem filter_append_filter_perm_of_disjoint {α : Type} (p q : α → Bool)
    (hpq : ∀ a, p a = true → q a = false) (l : List α) :
    (l.filter p ++ l.filter q).Perm (l.filter (fun a => p a || q a)) := by
  induction l with
  | nil => exact List.Perm.refl _
  | cons a rest ih =>
    by_cases hp : p a = true
    · have hq := hpq a hp
      simpa [List.filter_cons, hp, hq] using ih.cons a
    · by_cases hq : q a = true
      · simp only [List.filter_cons, hp, hq, Bool.not_eq_true] at *
        simp [hp, hq]
        exact (List.perm_middle.trans (ih.cons a))
      · simp only [Bool.not_eq_true] at hp hq
        simpa [List.filter_cons, hp, hq] using ih

/-- The flattened, deny-upgraded diagnostics vector built at the start of
`emit_diagnostics` (numerical_analysis.rs:29-44). -/
def processed_diags (opts : AnalysisOption) (drained : List (List Diagnostic)) :
    List Diagnostic :=
  (drained.flatten).map
    (fun d => if opts.deny_warnings then d.upgrade_to_error else d)

/-- The diagnostics vector after `diagnostics.sort_by(Diagnostic::compare)`
(numerical_analysis.rs:46). -/
def sorted_diags (opts : AnalysisOption) (drained : List (List Diagnostic)) :
    List Diagnostic :=
  List.insertionSort diagLe (processed_diags opts drained)

theorem emit_diagnostics_eq (opts : AnalysisOption) (drained : List (List Diagnostic)) :
    emit_diagnostics opts drained = after_sort opts (sorted_diags opts drained) := rfl

/-- A diagnostic survives both the `suppress_warnings` filter and the
`memory_safety_only` filter. -/
def keep_diag (opts : AnalysisOption) (d : Diagnostic) : Bool :=
  (match opts.suppressed_warnings with
   | some sw => !(sw.contains d.cause)
   | none => true)
  && (!opts.memory_safety_only || d.is_memory_safety)

theorem emitted_eq_filter (opts : AnalysisOption) (drained : List (List Diagnostic)) :
    (emit_diagnostics opts drained).emitted =
      (sorted_diags opts drained).filter (keep_diag opts) := by
  rw [emit_diagnostics_eq]
  unfold after_sort
  rcases hsw : opts.suppressed_warnings with _ | sw <;>
    by_cases hm : opts.memory_safety_only = true <;>
      simp [hsw, hm, suppressLoop_eq_filter, memLoop_eq_filter, List.filter_filter]
  · exact (List.filter_congr
      (fun a _ => by simp [keep_diag, hsw, hm])).symm
  · symm
    refine List.filter_eq_self.2 ?_
    intro a _
    simp only [Bool.not_eq_true] at hm
    simp [keep_diag, hsw, hm]
  · exact (List.filter_congr
      (fun a _ => by simp [keep_diag, hsw, hm, Bool.and_comm])).symm
  · exact (List.filter_congr
      (fun a _ => by simp [keep_diag, hsw, hm])).symm

theorem cancelled_perm_filter (opts : AnalysisOption) (drained : List (List Diagnostic)) :
    ((emit_diagnostics opts drained).cancelled).Perm
      ((sorted_diags opts drained).filter (fun d => !(keep_diag opts d))) := by
  rw [emit_diagnostics_eq]
  unfold after_sort
  rcases hsw : opts.suppressed_warnings with _ | sw <;>
    by_cases hm : opts.memory_safety_only = true
  · simp only [hsw, hm, memLoop_eq_filter, if_pos]
    simp only [List.nil_append]
    exact List.Perm.of_eq (List.filter_congr
      (fun a _ => by simp [keep_diag, hsw, hm]))
  · simp only [Bool.not_eq_true] at hm
    simp [hsw, hm, keep_diag]
  · simp only [hsw, hm, suppressLoop_eq_filter, memLoop_eq_filter, if_pos]
    have hperm := filter_append_filter_perm_of_disjoint
      (fun d : Diagnostic => sw.contains d.cause)
      (fun d : Diagnostic => !d.is_memory_safety && !(sw.contains d.cause))
      (fun a ha => by simp at ha; simp [ha]) (sorted_diags opts drained)
    simp only [List.filter_filter] at hperm ⊢
    refine List.Perm.trans (List.Perm.of_eq ?_) (hperm.trans (List.Perm.of_eq ?_))
    · simp [Bool.and_comm]
    · exact List.filter_congr (fun a _ => by
        simp [keep_diag, hsw, hm]
        cases hsa : decide (a.cause ∈ sw) <;> cases hma : a.is_memory_safety <;>
          simp [hsa, hma])
  · simp only [hsw, hm, suppressLoop_eq_filter]
    simp only [Bool.not_eq_true] at hm
    simp only [hm, Bool.false_eq_true, if_neg, not_false_eq_true]
    exact List.Perm.of_eq (List.filter_congr
      (fun a _ => by simp [keep_diag, hsw, hm]))

/-- C3: every diagnostic present in the per-function diagnostics store when
`emit_diagnostics` runs is consumed exactly once, by exactly one of `emit`
or `cancel`: for every combination of the `suppressed_warnings` and
`memory_safety_only` options, the concatenation of the emitted and the
cancelled diagnostics is a permutation of the (deny-upgraded) store
contents — nothing is emitted twice and nothing is dropped. -/
theorem emit_diagnostics_consumes_each_exactly_once
    (opts : AnalysisOption) (drained : List (List Diagnostic)) :
    ((emit_diagnostics opts drained).emitted ++
        (emit_diagnostics opts drained).cancelled).Perm
      (processed_diags opts drained) := by
  have h1 := emitted_eq_filter opts drained
  have h2 := cancelled_perm_filter opts drained
  have step1 : ((emit_diagnostics opts drained).emitted ++
      (emit_diagnostics opts drained).cancelled).Perm
      ((sorted_diags opts drained).filter (keep_diag opts) ++
        (sorted_diags opts drained).filter (fun d => !(keep_diag opts d))) := by
    rw [h1]
    exact (List.Perm.refl _).append h2
  refine step1.trans ?_
  refine (filter_append_not_filter_perm (keep_diag opts) _).trans ?_
  exact List.perm_insertionSort diagLe _

/-- C4: `emit_diagnostics` emits exactly the diagnostics whose cause is not
in the configured `suppressed_warnings` set and, when `memory_safety_only`
is set, whose `is_memory_safety` flag is true (`keep_diag`); every
diagnostic excluded by either filter is cancelled instead of emitted. -/
theorem emit_diagnostics_emits_exactly_unsuppressed
    (opts : AnalysisOption) (drained : List (List Diagnostic)) :
    (emit_diagnostics opts drained).emitted =
        (sorted_diags opts drained).filter (keep_diag opts)
      ∧ ((emit_diagnostics opts drained).cancelled).Perm
        ((sorted_diags opts drained).filter (fun d => !(keep_diag opts d))) :=
  ⟨emitted_eq_filter opts drained, cancelled_perm_filter opts drained⟩

/-- C5: `Diagnostic::compare` is a total (pre)order determined by the
primary span sequences — reflexively `Equal`, `Less` exactly when the
swapped comparison is `Greater`, transitive in `Less` — and the sequence of
diagnostics emitted by `emit_diagnostics` is sorted non-decreasing under
it. -/
theorem diagnostic_compare_total_order_and_emitted_sorted :
    (∀ x : Diagnostic, Diagnostic.compare x x = Ordering.eq)
    ∧ (∀ x y : Diagnostic,
        Diagnostic.compare x y = Ordering.lt ↔
          Diagnostic.compare y x = Ordering.gt)
    ∧ (∀ x y z : Diagnostic,
        Diagnostic.compare x y = Ordering.lt →
        Diagnostic.compare y z = Ordering.lt →
        Diagnostic.compare x z = Ordering.lt)
    ∧ (∀ (opts : AnalysisOption) (drained : List (List Diagnostic)),
        (emit_diagnostics opts drained).emitted.Pairwise
          (fun a b => Diagnostic.compare a b ≠ Ordering.gt)) := by
  refine ⟨?_, ?_, ?_, ?_⟩
  · intro x
    rw [compare_eq_eq_iff]
  · intro x y
    rw [compare_eq_lt_iff, compare_eq_gt_iff]
    exact lexCompare_lt_iff_gt _ _
  · intro x y z h1 h2
    rw [compare_eq_lt_iff] at *
    exact lexCompare_lt_trans h1 h2
  · intro opts drained
    rw [emitted_eq_filter opts drained]
    have hs : (sorted_diags opts drained).Pairwise diagLe :=
      List.sorted_insertionSort diagLe _
    exact List.Pairwise.sublist (List.filter_sublist _) hs

/-- The strict sort order on diagnostics: strictly smaller primary spans. -/
def diagLt (x y : Diagnostic) : Prop := Diagnostic.compare x y = Ordering.lt

instance : IsAntisymm Diagnostic diagLt := by
  constructor
  intro a b h1 h2
  unfold diagLt at h1 h2
  rw [compare_eq_lt_iff] at h1 h2
  have := (lexCompare_lt_iff_gt _ _).1 h2
  rw [h1] at this
  cases this

theorem spans_of_deny (c : Bool) (d : Diagnostic) :
    (if c then d.upgrade_to_error else d).builder.spans = d.builder.spans := by
  cases c <;> rfl

/-- An `AnalysisOption` with every emission filter disabled. -/
def defaultOpts : AnalysisOption :=
  { deny_warnings := false, suppressed_warnings := none,
    memory_safety_only := false }

/-- Two diagnostics with identical primary spans but different messages. -/
def diagA : Diagnostic :=
  { builder := { level := DiagLevel.warning, messages := [some "A"], spans := [0] },
    is_memory_safety := false, cause := DiagnosticCause.arithmetic }

/-- Like `diagA` but with message "B". -/
def diagB : Diagnostic :=
  { builder := { level := DiagLevel.warning, messages := [some "B"], spans := [0] },
    is_memory_safety := false, cause := DiagnosticCause.arithmetic }

/-- C1 counterexample: the output of `emit_diagnostics` depends on the
order in which `into_values()` drains the per-function `HashMap`.  The two
drain orders `[[diagA],[diagB]]` and `[[diagB],[diagA]]` present the same
store contents (they are permutations of one another), yet the emitted
sequences differ, because `Diagnostic::compare` sees the two span-equal
diagnostics as `Equal` and the stable sort keeps drain order.  Since the
drain order of a `std::collections::HashMap` is not fixed across runs
(`RandomState` hashing), two runs need not produce byte-identical output. -/
theorem emit_diagnostics_drain_order_dependent :
    ([[diagA], [diagB]] : List (List Diagnostic)).Perm [[diagB], [diagA]]
    ∧ emit_diagnostics defaultOpts [[diagA], [diagB]] ≠
        emit_diagnostics defaultOpts [[diagB], [diagA]] := by
  constructor
  · exact List.Perm.swap _ _ _
  · decide

/-- C1 (amended): for a fixed drain order the analysis output is a pure
function of the store and the options, and whenever all buffered
diagnostics have pairwise distinct primary span sequences the output is
independent of the drain order — so byte-identical across runs. -/
theorem emit_diagnostics_deterministic_of_distinct_spans
    (opts : AnalysisOption) (dr1 dr2 : List (List Diagnostic))
    (hperm : dr1.Perm dr2)
    (hdist : (dr1.flatten).Pairwise
      (fun a b => a.builder.spans ≠ b.builder.spans)) :
    emit_diagnostics opts dr1 = emit_diagnostics opts dr2 := by
  have hflat : (dr1.flatten).Perm (dr2.flatten) := perm_flatten_of_perm hperm
  have hmap : (processed_diags opts dr1).Perm (processed_diags opts dr2) :=
    hflat.map _
  have hsym : ∀ {x y : Diagnostic},
      x.builder.spans ≠ y.builder.spans → y.builder.spans ≠ x.builder.spans :=
    fun h => h.symm
  have hdist1 : (processed_diags opts dr1).Pairwise
      (fun a b => a.builder.spans ≠ b.builder.spans) := by
    unfold processed_diags
    rw [List.pairwise_map]
    refine hdist.imp ?_
    intro a b hab
    rwa [spans_of_deny, spans_of_deny]
  have hsortperm : (sorted_diags opts dr1).Perm (sorted_diags opts dr2) :=
    (List.perm_insertionSort diagLe _).trans
      (hmap.trans (List.perm_insertionSort diagLe _).symm)
  have hstrict : ∀ dr, (processed_diags opts dr).Pairwise
      (fun a b => a.builder.spans ≠ b.builder.spans) →
      (sorted_diags opts dr).Pairwise diagLt := by
    intro dr hd
    have hle : (sorted_diags opts dr).Pairwise diagLe :=
      List.sorted_insertionSort diagLe _
    have hne : (sorted_diags opts dr).Pairwise
        (fun a b => a.builder.spans ≠ b.builder.spans) :=
      ((List.perm_insertionSort diagLe _).pairwise_iff hsym).2 hd
    refine (hle.and hne).imp ?_
    intro a b hab
    unfold diagLe at hab
    unfold diagLt
    rcases hc : Diagnostic.compare a b with _ | _ | _
    · rfl
    · rw [compare_eq_eq_iff] at hc
      exact absurd hc hab.2
    · exact absurd hc hab.1
  have hdist2 : (processed_diags opts dr2).Pairwise
      (fun a b => a.builder.spans ≠ b.builder.spans) :=
    (hmap.pairwise_iff hsym).1 hdist1
  have heq : sorted_diags opts dr1 = sorted_diags opts dr2 :=
    List.eq_of_perm_of_sorted hsortperm (hstrict dr1 hdist1) (hstrict dr2 hdist2)
  rw [emit_diagnostics_eq, emit_diagnostics_eq, heq]

/-- A diagnostic with primary span 1, distinct from `diagA`'s span. -/
def diagC : Diagnostic :=
  { builder := { level := DiagLevel.warning, messages := [some "C"], spans := [1] },
    is_memory_safety := false, cause := DiagnosticCause.divZero }

theorem emit_diagnostics_deterministic_witness :
    ([[diagA], [diagC]] : List (List Diagnostic)).Perm [[diagC], [diagA]]
    ∧ ([[diagA], [diagC]] : List (List Diagnostic)).flatten.Pairwise
        (fun a b => a.builder.spans ≠ b.builder.spans)
    ∧ emit_diagnostics defaultOpts [[diagA], [diagC]] =
        emit_diagnostics defaultOpts [[diagC], [diagA]] :=
  ⟨by decide, by decide,
    emit_diagnostics_deterministic_of_distinct_spans defaultOpts
      [[diagA], [diagC]] [[diagC], [diagA]] (by decide) (by decide)⟩

/-- `mir::BinOp`, restricted to exactly the variants matched by the
`From<&mir::AssertKind<O>>` impl in diagnostics.rs:31-40. -/
inductive BinOp where
  | add | sub | mul | div | rem
  | addUnchecked | subUnchecked | mulUnchecked
  | shr | shl | bitXor | bitAnd | bitOr | shlUnchecked | shrUnchecked
  | eq | lt | le | ne | ge | gt | cmp
  | offset
deriving DecidableEq

/-- `mir::AssertKind` (the operand payloads carry no information used by
the cause classification and are omitted). -/
inductive AssertKind where
  | boundsCheck
  | overflow (op : BinOp)
  | overflowNeg
  | divisionByZero
  | remainderByZero
  | resumedAfterReturn
  | resumedAfterPanic
  | misalignedPointerDereference
deriving DecidableEq

/-- `impl From<&mir::AssertKind<O>> for DiagnosticCause`
(diagnostics.rs:26-48). -/
def DiagnosticCause.fromAssertKind : AssertKind → DiagnosticCause
  | AssertKind.boundsCheck => DiagnosticCause.index
  | AssertKind.overflow op =>
    match op with
    | BinOp.add | BinOp.sub | BinOp.mul | BinOp.div | BinOp.rem
    | BinOp.addUnchecked | BinOp.subUnchecked | BinOp.mulUnchecked =>
      DiagnosticCause.arithmetic
    | BinOp.shr | BinOp.shl | BinOp.bitXor | BinOp.bitAnd | BinOp.bitOr
    | BinOp.shlUnchecked | BinOp.shrUnchecked => DiagnosticCause.bitwise
    | BinOp.eq | BinOp.lt | BinOp.le | BinOp.ne | BinOp.ge | BinOp.gt
    | BinOp.cmp => DiagnosticCause.comparison
    | BinOp.offset => DiagnosticCause.index
  | AssertKind.overflowNeg => DiagnosticCause.arithmetic
  | AssertKind.divisionByZero | AssertKind.remainderByZero =>
    DiagnosticCause.divZero
  | _ => DiagnosticCause.otherCause

/-- Arithmetic binary operators as the claim groups them (the checked and
unchecked add/sub/mul together with div and rem). -/
def BinOp.isArith : BinOp → Bool
  | BinOp.add | BinOp.sub | BinOp.mul | BinOp.div | BinOp.rem
  | BinOp.addUnchecked | BinOp.subUnchecked | BinOp.mulUnchecked => true
  | _ => false

/-- Shift and bitwise binary operators. -/
def BinOp.isBit : BinOp → Bool
  | BinOp.shr | BinOp.shl | BinOp.bitXor | BinOp.bitAnd | BinOp.bitOr
  | BinOp.shlUnchecked | BinOp.shrUnchecked => true
  | _ => false

/-- Comparison binary operators. -/
def BinOp.isCmp : BinOp → Bool
  | BinOp.eq | BinOp.lt | BinOp.le | BinOp.ne | BinOp.ge | BinOp.gt
  | BinOp.cmp => true
  | _ => false

/-- C2: the `DiagnosticCause` derived from a MIR assert kind is exactly the
claimed mapping: `BoundsCheck` to `Index`; overflow of an arithmetic
operator to `Arithmetic`; overflow of a shift or bitwise operator to
`Bitwise`; overflow of a comparison operator to `Comparison`;
`Overflow(Offset)` to `Index`; `DivisionByZero` and `RemainderByZero` to
`DivZero`; `OverflowNeg` to `Arithmetic`. -/
theorem assert_kind_cause_mapping :
    DiagnosticCause.fromAssertKind AssertKind.boundsCheck = DiagnosticCause.index
    ∧ (∀ op, op.isArith = true →
        DiagnosticCause.fromAssertKind (AssertKind.overflow op) =
          DiagnosticCause.arithmetic)
    ∧ (∀ op, op.isBit = true →
        DiagnosticCause.fromAssertKind (AssertKind.overflow op) =
          DiagnosticCause.bitwise)
    ∧ (∀ op, op.isCmp = true →
        DiagnosticCause.fromAssertKind (AssertKind.overflow op) =
          DiagnosticCause.comparison)
    ∧ DiagnosticCause.fromAssertKind (AssertKind.overflow BinOp.offset) =
        DiagnosticCause.index
    ∧ DiagnosticCause.fromAssertKind AssertKind.divisionByZero =
        DiagnosticCause.divZero
    ∧ DiagnosticCause.fromAssertKind AssertKind.remainderByZero =
        DiagnosticCause.divZero
    ∧ DiagnosticCause.fromAssertKind AssertKind.overflowNeg =
        DiagnosticCause.arithmetic := by
  refine ⟨rfl, ?_, ?_, ?_, rfl, rfl, rfl, rfl⟩ <;>
    intro op h <;> cases op <;> first | rfl | cases h

theorem assert_kind_cause_mapping_witness :
    BinOp.add.isArith = true
    ∧ BinOp.shl.isBit = true
    ∧ BinOp.lt.isCmp = true
    ∧ DiagnosticCause.fromAssertKind (AssertKind.overflow BinOp.add) =
        DiagnosticCause.arithmetic
    ∧ DiagnosticCause.fromAssertKind (AssertKind.overflow BinOp.shl) =
        DiagnosticCause.bitwise
    ∧ DiagnosticCause.fromAssertKind (AssertKind.overflow BinOp.lt) =
        DiagnosticCause.comparison :=
  ⟨rfl, rfl, rfl,
    assert_kind_cause_mapping.2.1 BinOp.add rfl,
    assert_kind_cause_mapping.2.2.1 BinOp.shl rfl,
    assert_kind_cause_mapping.2.2.2.1 BinOp.lt rfl⟩

/-- C10: cloning a diagnostic preserves the `is_memory_safety` flag, the
cause, and the severity level, while the cloned builder carries exactly one
message — the first message's static string, or the empty string when there
is no message or the first message has no static string — and no spans. -/
theorem diagnostic_clone_spec (d : Diagnostic) :
    (d.clone).is_memory_safety = d.is_memory_safety
    ∧ (d.clone).cause = d.cause
    ∧ (d.clone).builder.level = d.builder.level
    ∧ (d.clone).builder.spans = []
    ∧ (∀ m rest, d.builder.messages = some m :: rest →
        (d.clone).builder.messages = [some m])
    ∧ (∀ rest, d.builder.messages = none :: rest →
        (d.clone).builder.messages = [some ""])
    ∧ (d.builder.messages = [] → (d.clone).builder.messages = [some ""]) := by
  refine ⟨rfl, rfl, rfl, rfl, ?_, ?_, ?_⟩
  · intro m rest h
    simp [Diagnostic.clone, h]
  · intro rest h
    simp [Diagnostic.clone, h]
  · intro h
    simp [Diagnostic.clone, h]

theorem diagnostic_clone_spec_witness :
    diagA.builder.messages = some "A" :: []
    ∧ (diagA.clone).builder.messages = [some "A"] :=
  ⟨rfl, (diagnostic_clone_spec diagA).2.2.2.2.1 "A" [] rfl⟩

/-- Which `rustc_driver::Callbacks` implementation `main` installs:
`TimePassesCallbacks` (plain pass-through compilation, no analysis) or
`MirCheckerCallbacks` (the analyzer). -/
inductive CallbacksKind where
  | timePasses
  | mirChecker
deriving DecidableEq

/-- The configuration `main` hands to `rustc_driver::RunCompiler`. -/
structure DriverSetup where
  callbacks : CallbacksKind
  rustc_args : List String
deriving DecidableEq

/-- The sysroot adjustment at mir-checker.rs:34-41: append
`--sysroot <path>` when a compile-time sysroot is known and the flag is
not already present. -/
def sysroot_args (args0 : List String) (sysroot : Option String) : List String :=
  match sysroot with
  | some s =>
    if args0.contains "--sysroot" then args0 else args0 ++ ["--sysroot", s]
  | none => args0

/-- `main` from `src/bin/mir-checker.rs` (lines 26-74), as a function of
the observable inputs: whether `MIR_CHECKER_BE_RUSTC` is present in the
environment (`env::var_os(..).is_some()`), the raw command-line arguments,
and the compile-time sysroot.  When the variable is present, the plain
rustc driver runs with `TimePassesCallbacks`; otherwise
`-Zalways_encode_mir` is appended if absent, `-Cpanic=abort` is appended
unconditionally, and `MirCheckerCallbacks` is installed. -/
def driver_setup (be_rustc : Bool) (args0 : List String)
    (sysroot : Option String) : DriverSetup :=
  let rustc_args := sysroot_args args0 sysroot
  if be_rustc then
    { callbacks := CallbacksKind.timePasses, rustc_args := rustc_args }
  else
    let rustc_args :=
      if rustc_args.contains "-Zalways_encode_mir" then rustc_args
      else rustc_args ++ ["-Zalways_encode_mir"]
    let rustc_args := rustc_args ++ ["-Cpanic=abort"]
    { callbacks := CallbacksKind.mirChecker, rustc_args := rustc_args }

/-- C6: with `MIR_CHECKER_BE_RUSTC` set, `main` is a pass-through compiler
(plain rustc driver with `TimePassesCallbacks`, arguments untouched beyond
the sysroot adjustment, no analysis); without it, `main` installs the
`MirCheckerCallbacks` analyzer and forces `-Zalways_encode_mir` (appended
only if absent) and `-Cpanic=abort` onto the argument list. -/
theorem driver_mode_and_forced_flags :
    (∀ args sysroot,
        (driver_setup true args sysroot).callbacks = CallbacksKind.timePasses
        ∧ (driver_setup true args sysroot).rustc_args = sysroot_args args sysroot)
    ∧ (∀ args sysroot,
        (driver_setup false args sysroot).callbacks = CallbacksKind.mirChecker
        ∧ "-Zalways_encode_mir" ∈ (driver_setup false args sysroot).rustc_args
        ∧ "-Cpanic=abort" ∈ (driver_setup false args sysroot).rustc_args
        ∧ ("-Zalways_encode_mir" ∈ sysroot_args args sysroot →
            (driver_setup false args sysroot).rustc_args =
              sysroot_args args sysroot ++ ["-Cpanic=abort"])
        ∧ ("-Zalways_encode_mir" ∉ sysroot_args args sysroot →
            (driver_setup false args sysroot).rustc_args =
              sysroot_args args sysroot ++
                ["-Zalways_encode_mir", "-Cpanic=abort"])) := by
  constructor
  · intro args sysroot
    exact ⟨rfl, rfl⟩
  · intro args sysroot
    refine ⟨rfl, ?_, ?_, ?_, ?_⟩
    · unfold driver_setup
      by_cases h : "-Zalways_encode_mir" ∈ sysroot_args args sysroot <;> simp [h]
    · unfold driver_setup
      by_cases h : "-Zalways_encode_mir" ∈ sysroot_args args sysroot <;> simp [h]
    · intro h
      unfold driver_setup
      simp [h]
    · intro h
      unfold driver_setup
      simp [h, List.append_assoc]

theorem driver_mode_and_forced_flags_witness :
    "-Zalways_encode_mir" ∉ sysroot_args ["file.rs"] none
    ∧ (driver_setup false ["file.rs"] none).rustc_args =
        ["file.rs", "-Zalways_encode_mir", "-Cpanic=abort"]
    ∧ "-Zalways_encode_mir" ∈ sysroot_args ["a", "-Zalways_encode_mir"] none
    ∧ (driver_setup false ["a", "-Zalways_encode_mir"] none).rustc_args =
        ["a", "-Zalways_encode_mir", "-Cpanic=abort"] := by
  refine ⟨by decide, ?_, by decide, ?_⟩
  · exact (driver_mode_and_forced_flags.2 ["file.rs"] none).2.2.2.2 (by decide)
  · exact (driver_mode_and_forced_flags.2 ["a", "-Zalways_encode_mir"] none).2.2.2.1
      (by decide)

/-- Model of `rustc_middle::ty::Ty` restricted to the `TyKind` cases the
embedded functions inspect.  `tcx`-dependent data is pre-resolved: an ADT
carries its qualified name (the output of `qualified_type_name` on its
`DefId`), a union flag, its variants as lists of already-substituted field
types (`field.ty(tcx, substs)`), and its generic arguments (`some ty` for a
type argument, `none` for a lifetime or const argument).  The unit type is
the empty tuple, as in rustc. -/
inductive MTy where
  | bool
  | char
  | int (name : String)
  | uint (name : String)
  | float (name : String)
  | str
  | adt (qname : String) (isUnion : Bool) (variants : List (List MTy))
      (subs : List (Option MTy))
  | closure (qname : String) (subs : List (Option MTy))
  | foreign (qname : String)
  | fnDef (qname : String) (subs : List (Option MTy))
  | array (elem : MTy)
  | slice (elem : MTy)
  | rawPtr (mutbl : Bool) (pointee : MTy)
  | ref (mutbl : Bool) (pointee : MTy)
  | tuple (types : List MTy)
  | param (name : String)
  | never

/-- `tcx.types.unit`: the empty tuple type. -/
def MTy.unit : MTy := MTy.tuple []

/-- `PathSelector` from `src/analysis/memory/path.rs`, restricted to the
variants that `get_path_rustc_type` distinguishes; the payloads of `Slice`
and `Index` are ignored by the source match and omitted here, and all
selectors reaching the catch-all arm are collapsed into `otherSelector`. -/
inductive PathSelector where
  | field (ordinal : Nat)
  | deref
  | discriminant
  | slice
  | index
  | otherSelector

/-- `PathEnum` from `src/analysis/memory/path.rs`, restricted likewise:
path kinds reaching the catch-all arm of `get_path_rustc_type` are
collapsed into `otherPath`. -/
inductive PathEnum where
  | localVariable (ordinal : Nat)
  | parameter (ordinal : Nat)
  | result
  | qualifiedPath (qualifier : PathEnum) (selector : PathSelector)
  | staticVariable (def_id : Option Nat)
  | otherPath

/-- The state of a `TypeVisitor` as consulted by `get_path_rustc_type`:
the MIR local declaration types, the actual argument types, the
`tcx.type_of` table for static variables, and the path-type cache. -/
structure TypeCtx where
  local_decls : List MTy
  actual_argument_types : List MTy
  static_type_of : Nat → MTy
  path_ty_cache : PathEnum → Option MTy

/-- `TypeVisitor::get_dereferenced_type` (type_visitor.rs:203-208). -/
def get_dereferenced_type : MTy → MTy
  | MTy.ref _ t => t
  | t => t

/-- `is_union` (type_visitor.rs:540-546). -/
def MTy.is_union : MTy → Bool
  | MTy.adt _ u _ _ => u
  | _ => false

/-- `TypeVisitor::get_path_rustc_type` (type_visitor.rs:71-200).  The
result is `some (ty, flagged)` where `flagged` records whether the unit
fallback logged its non-fatal `info!` diagnostic (at this call or while
resolving a qualifier), and `none` models a rustc panic: the `expect_ty()`
call on a non-type closure generic argument, or the `usize` underflow in
`actual_argument_types[*ordinal - 1]` when `ordinal` is `0`. -/
def get_path_rustc_type (ctx : TypeCtx) (p : PathEnum) : Option (MTy × Bool) :=
  match ctx.path_ty_cache p with
    | some ty => some (ty, false)
    | none =>
      match p with
      | PathEnum.localVariable ordinal =>
        if 0 < ordinal ∧ ordinal < ctx.local_decls.length then
          some (ctx.local_decls.getD ordinal MTy.unit, false)
        else
          some (MTy.unit, true)
      | PathEnum.parameter ordinal =>
        if ctx.actual_argument_types.length ≥ ordinal then
          match ordinal with
          | 0 => none
          | n + 1 => some (ctx.actual_argument_types.getD n MTy.unit, false)
        else if 0 < ordinal ∧ ordinal < ctx.local_decls.length then
          some (ctx.local_decls.getD ordinal MTy.unit, false)
        else
          some (MTy.unit, true)
      | PathEnum.result =>
        if ctx.local_decls.isEmpty then
          some (MTy.unit, true)
        else
          some (ctx.local_decls.getD 0 MTy.unit, false)
      | PathEnum.qualifiedPath qualifier selector =>
        match get_path_rustc_type ctx qualifier with
        | none => none
        | some (t, tf) =>
          match selector with
          | PathSelector.slice => some (t, tf)
          | PathSelector.field ordinal =>
            match get_dereferenced_type t with
            | MTy.adt _ isUnion variants _ =>
              if isUnion then some (MTy.unit, true)
              else
                match variants.getLast? with
                | some variant =>
                  match variant[ordinal]? with
                  | some fty => some (fty, tf)
                  | none => some (MTy.unit, true)
                | none => some (MTy.unit, true)
            | MTy.closure _ subs =>
              if ordinal + 4 < subs.length then
                match subs.getD (ordinal + 4) none with
                | some ty => some (ty, tf)
                | none => none
              else some (MTy.unit, true)
            | MTy.tuple types =>
              match types[ordinal]? with
              | some g => some (g, tf)
              | none => some (MTy.unit, true)
            | _ => some (MTy.unit, true)
          | PathSelector.deref => some (get_dereferenced_type t, tf)
          | PathSelector.discriminant => some (MTy.int "i32", tf)
          | PathSelector.index =>
            match t with
            | MTy.array elem => some (elem, tf)
            | MTy.slice elem => some (elem, tf)
            | _ => some (MTy.unit, true)
          | PathSelector.otherSelector => some (MTy.unit, true)
      | PathEnum.staticVariable def_id =>
        match def_id with
        | some id => some (ctx.static_type_of id, false)
        | none => some (MTy.unit, true)
      | PathEnum.otherPath => some (MTy.unit, true)

mutual

/-- `TypeVisitor::specialize_generic_argument_type`
(type_visitor.rs:371-478), over the modelled `TyKind` cases: identity when
the substitution map is absent; ADTs returned unchanged; arrays, slices,
raw pointers, references, tuples and `FnDef` substitutions specialized
recursively; a type parameter looked up by name in the map and returned
unchanged when absent (the `FnPtr` and `Dynamic` cases of the source
concern type kinds not modelled here). -/
def specialize_generic_argument_type (gen_arg_type : MTy)
    (map : Option (List (String × MTy))) : MTy :=
  if map.isNone then gen_arg_type
  else
    match gen_arg_type with
    | MTy.adt _ _ _ _ => gen_arg_type
    | MTy.array elem_ty =>
      MTy.array (specialize_generic_argument_type elem_ty map)
    | MTy.slice elem_ty =>
      MTy.slice (specialize_generic_argument_type elem_ty map)
    | MTy.rawPtr mutbl ty =>
      MTy.rawPtr mutbl (specialize_generic_argument_type ty map)
    | MTy.ref mutbl ty =>
      MTy.ref mutbl (specialize_generic_argument_type ty map)
    | MTy.fnDef def_id substs =>
      MTy.fnDef def_id (specialize_substs substs map)
    | MTy.tuple substs => MTy.tuple (specialize_ty_list substs map)
    | MTy.param name =>
      match map with
      | some m =>
        match m.lookup name with
        | some ty => ty
        | none => gen_arg_type
      | none => gen_arg_type
    | _ => gen_arg_type

/-- `TypeVisitor::specialize_substs` composed with
`specialize_generic_argument` (type_visitor.rs:360-369, 480-489):
specialize every type argument, leave lifetime/const arguments alone. -/
def specialize_substs (substs : List (Option MTy))
    (map : Option (List (String × MTy))) : List (Option MTy) :=
  match substs with
  | [] => []
  | some ty :: rest =>
    some (specialize_generic_argument_type ty map) :: specialize_substs rest map
  | none :: rest => none :: specialize_substs rest map

/-- The element-wise specialization of a tuple's component types
(type_visitor.rs:462-469). -/
def specialize_ty_list (tys : List MTy)
    (map : Option (List (String × MTy))) : List MTy :=
  match tys with
  | [] => []
  | ty :: rest =>
    specialize_generic_argument_type ty map :: specialize_ty_list rest map

end

/-- C7 counterexample: a type parameter absent from the generic
substitution map is NOT resolved to the unit type;
`specialize_generic_argument_type` returns the parameter unchanged (and
logs nothing).  Here the map is present but empty. -/
theorem specialize_absent_param_not_unit :
    specialize_generic_argument_type (MTy.param "T") (some []) = MTy.param "T"
    ∧ MTy.param "T" ≠ MTy.unit :=
  ⟨rfl, fun h => MTy.noConfusion h⟩

/-- C7 (amended): when `get_path_rustc_type` cannot resolve the type of a
path — an out-of-range local or parameter ordinal, an unresolvable
qualified selector, or a static variable without a def id — it yields the
unit type and flags a non-fatal `info!` diagnostic, and the analysis
continues; but a type parameter absent from the substitution map is simply
returned unchanged by `specialize_generic_argument_type`, with no unit
fallback and no diagnostic. -/
theorem type_resolution_fallback_unit :
    (∀ (ctx : TypeCtx) (n : Nat),
        ctx.path_ty_cache (PathEnum.localVariable n) = none →
        ¬(0 < n ∧ n < ctx.local_decls.length) →
        get_path_rustc_type ctx (PathEnum.localVariable n) =
          some (MTy.unit, true))
    ∧ (∀ (ctx : TypeCtx) (n : Nat),
        ctx.path_ty_cache (PathEnum.parameter (n + 1)) = none →
        ctx.actual_argument_types.length < n + 1 →
        ¬(0 < n + 1 ∧ n + 1 < ctx.local_decls.length) →
        get_path_rustc_type ctx (PathEnum.parameter (n + 1)) =
          some (MTy.unit, true))
    ∧ (∀ ctx : TypeCtx,
        ctx.path_ty_cache (PathEnum.staticVariable none) = none →
        get_path_rustc_type ctx (PathEnum.staticVariable none) =
          some (MTy.unit, true))
    ∧ (∀ (ctx : TypeCtx) (q : PathEnum) (n : Nat) (f : Bool),
        ctx.path_ty_cache (PathEnum.qualifiedPath q (PathSelector.field n)) =
          none →
        get_path_rustc_type ctx q = some (MTy.int "i32", f) →
        get_path_rustc_type ctx
            (PathEnum.qualifiedPath q (PathSelector.field n)) =
          some (MTy.unit, true))
    ∧ (∀ (name : String) (m : List (String × MTy)),
        m.lookup name = none →
        specialize_generic_argument_type (MTy.param name) (some m) =
          MTy.param name) := by
  refine ⟨?_, ?_, ?_, ?_, ?_⟩
  · intro ctx n hcache hrange
    simp [get_path_rustc_type, hcache, hrange]
  · intro ctx n hcache hlen hrange
    have hge : ¬(ctx.actual_argument_types.length ≥ n + 1) := by omega
    simp [get_path_rustc_type, hcache, hge, hrange]
    omega
  · intro ctx hcache
    simp [get_path_rustc_type, hcache]
  · intro ctx q n f hcache hq
    simp [get_path_rustc_type, hcache, hq, get_dereferenced_type]
  · intro name m hlookup
    simp [specialize_generic_argument_type, hlookup]

/-- A type context with no locals, no arguments and an empty cache. -/
def emptyTypeCtx : TypeCtx :=
  { local_decls := [], actual_argument_types := [],
    static_type_of := fun _ => MTy.unit, path_ty_cache := fun _ => none }

theorem type_resolution_fallback_unit_witness :
    get_path_rustc_type emptyTypeCtx (PathEnum.localVariable 5) =
        some (MTy.unit, true)
    ∧ get_path_rustc_type emptyTypeCtx (PathEnum.parameter 3) =
        some (MTy.unit, true)
    ∧ get_path_rustc_type emptyTypeCtx (PathEnum.staticVariable none) =
        some (MTy.unit, true)
    ∧ specialize_generic_argument_type (MTy.param "T") (some [("U", MTy.bool)]) =
        MTy.param "T" :=
  ⟨type_resolution_fallback_unit.1 emptyTypeCtx 5 rfl (by simp [emptyTypeCtx]),
   type_resolution_fallback_unit.2.1 emptyTypeCtx 2 rfl
     (by simp [emptyTypeCtx]) (by simp [emptyTypeCtx]),
   type_resolution_fallback_unit.2.2.1 emptyTypeCtx rfl,
   type_resolution_fallback_unit.2.2.2.2 "T" [("U", MTy.bool)] rfl⟩

/-- C9: for a qualified path with selector `Field(ordinal)` whose qualifier
resolves to a closure type, `get_path_rustc_type` reads the upvar type at
the fixed offset `ordinal + 4` into the closure's substitutions whenever
that index is in bounds (and the argument there is a type), and falls
through to the unit-type fallback otherwise. -/
theorem closure_upvar_offset :
    (∀ (ctx : TypeCtx) (q : PathEnum) (qname : String)
        (subs : List (Option MTy)) (n : Nat) (f : Bool) (t : MTy),
        ctx.path_ty_cache (PathEnum.qualifiedPath q (PathSelector.field n)) =
          none →
        get_path_rustc_type ctx q = some (MTy.closure qname subs, f) →
        subs[n + 4]? = some (some t) →
        get_path_rustc_type ctx
            (PathEnum.qualifiedPath q (PathSelector.field n)) = some (t, f))
    ∧ (∀ (ctx : TypeCtx) (q : PathEnum) (qname : String)
        (subs : List (Option MTy)) (n : Nat) (f : Bool),
        ctx.path_ty_cache (PathEnum.qualifiedPath q (PathSelector.field n)) =
          none →
        get_path_rustc_type ctx q = some (MTy.closure qname subs, f) →
        subs.length ≤ n + 4 →
        get_path_rustc_type ctx
            (PathEnum.qualifiedPath q (PathSelector.field n)) =
          some (MTy.unit, true)) := by
  constructor
  · intro ctx q qname subs n f t hcache hq hsub
    have hlt : n + 4 < subs.length := by
      by_contra hn
      push_neg at hn
      rw [List.getElem?_eq_none (by omega)] at hsub
      cases hsub
    have hgetD : subs.getD (n + 4) none = some t := by
      rw [List.getD_eq_getElem?_getD, hsub]
      rfl
    have hElem : subs[n + 4] = some t := by
      have h2 := List.getElem?_eq_getElem hlt
      rw [hsub] at h2
      exact (Option.some.inj h2).symm
    simp [get_path_rustc_type, hcache, hq, get_dereferenced_type, hlt, hgetD]
    simp [hElem]
  · intro ctx q qname subs n f hcache hq hge
    have hlt : ¬(n + 4 < subs.length) := by omega
    simp [get_path_rustc_type, hcache, hq, get_dereferenced_type, hlt]

/-- A type context whose local 1 is a closure with two upvars (`bool` and
`char`) behind the four leading generic arguments. -/
def closureCtx : TypeCtx :=
  { local_decls :=
      [MTy.unit,
       MTy.closure "f"
         [none, none, none, none, some MTy.bool, some MTy.char]],
    actual_argument_types := [],
    static_type_of := fun _ => MTy.unit, path_ty_cache := fun _ => none }

theorem closure_upvar_offset_witness :
    get_path_rustc_type closureCtx
        (PathEnum.qualifiedPath (PathEnum.localVariable 1)
          (PathSelector.field 0)) = some (MTy.bool, false)
    ∧ get_path_rustc_type closureCtx
        (PathEnum.qualifiedPath (PathEnum.localVariable 1)
          (PathSelector.field 5)) = some (MTy.unit, true) :=
  ⟨closure_upvar_offset.1 closureCtx (PathEnum.localVariable 1) "f"
      [none, none, none, none, some MTy.bool, some MTy.char] 0 false MTy.bool
      rfl rfl rfl,
   closure_upvar_offset.2 closureCtx (PathEnum.localVariable 1) "f"
      [none, none, none, none, some MTy.bool, some MTy.char] 5 false
      rfl rfl (by simp)⟩

/-- Rust's `str::ends_with`, at the level of the underlying character
lists. -/
def strEndsWith (s suffix : String) : Bool := suffix.data.isSuffixOf s.data

/-- `rustc_hir::definitions::DefPathData`, restricted to the variants
`push_component_name` distinguishes. -/
inductive DefPathData where
  | typeNs (name : String)
  | valueNs (name : String)
  | macroNs (name : String)
  | lifetimeNs (name : String)
  | crateRoot
  | impl
  | foreignMod
  | use
  | globalAsm
  | closure
  | ctor
  | anonConst
  | opaqueTy
  | anonAdt
deriving DecidableEq

/-- One component of a rustc definition path: its data and its
disambiguator. -/
structure DisambiguatedDefPathData where
  data : DefPathData
  disambiguator : Nat
deriving DecidableEq

/-- The `tcx` facts consumed by `summary_key_str` for one `DefId`: the
containing crate's name, the definition path, and — for the impl special
case — the crate name of `tcx.parent(def_id)` and `tcx.type_of` that
parent. -/
structure SummaryCtx where
  crateName : String
  defPath : List DisambiguatedDefPathData
  parentCrateName : String
  parentType : MTy

mutual

/-- `append_mangled_type` (utils.rs:21-137), over the modelled `TyKind`
cases; `qualified_type_name` results are pre-resolved into the `qname`
fields of `MTy` (the `Dynamic` and `FnPtr` cases of the source concern
type kinds not modelled here). -/
def append_mangled_type (s : String) (t : MTy) : String :=
  match t with
  | MTy.bool => s ++ "bool"
  | MTy.char => s ++ "char"
  | MTy.int name => s ++ name
  | MTy.uint name => s ++ name
  | MTy.float name => s ++ name
  | MTy.str => s ++ "str"
  | MTy.adt qname _ _ subs => append_mangled_subs (s ++ qname) subs
  | MTy.closure qname subs =>
    append_mangled_subs (s ++ "closure_" ++ qname) subs
  | MTy.foreign qname => s ++ "extern_type_" ++ qname
  | MTy.fnDef qname subs => append_mangled_subs (s ++ "fn_" ++ qname) subs
  | MTy.array elem => append_mangled_type (s ++ "array_") elem
  | MTy.slice elem => append_mangled_type (s ++ "slice_") elem
  | MTy.rawPtr mutbl pointee =>
    append_mangled_type
      (s ++ "pointer_" ++ (if mutbl then "mut_" else "const_")) pointee
  | MTy.ref mutbl pointee =>
    append_mangled_type (s ++ "ref_" ++ (if mutbl then "mut_" else "")) pointee
  | MTy.tuple types =>
    append_mangled_tuple (s ++ "tuple_" ++ toString types.length) types
  | MTy.param name => s ++ "generic_par_" ++ name
  | MTy.never => s ++ "_"

/-- The generic-argument loops of `append_mangled_type`: for every type
argument push `'_'` and the mangled type; skip lifetime/const arguments. -/
def append_mangled_subs (s : String) (subs : List (Option MTy)) : String :=
  match subs with
  | [] => s
  | some ty :: rest =>
    append_mangled_subs (append_mangled_type (s ++ "_") ty) rest
  | none :: rest => append_mangled_subs s rest

/-- The tuple-component loop of `append_mangled_type`. -/
def append_mangled_tuple (s : String) (tys : List MTy) : String :=
  match tys with
  | [] => s
  | ty :: rest => append_mangled_tuple (append_mangled_type (s ++ "_") ty) rest

end

/-- `push_component_name` (utils.rs:205-225). -/
def push_component_name (component_data : DefPathData) (target : String) :
    String :=
  match component_data with
  | DefPathData.typeNs name | DefPathData.valueNs name
  | DefPathData.macroNs name | DefPathData.lifetimeNs name => target ++ name
  | DefPathData.crateRoot => target ++ "crate_root"
  | DefPathData.impl => target ++ "implement"
  | DefPathData.foreignMod => target ++ "foreign_mod"
  | DefPathData.use => target ++ "use"
  | DefPathData.globalAsm => target ++ "global_asm"
  | DefPathData.closure => target ++ "closure"
  | DefPathData.ctor => target ++ "ctor"
  | DefPathData.anonConst => target ++ "constant"
  | DefPathData.opaqueTy => target ++ "opaque_type"
  | DefPathData.anonAdt => target ++ "anonymous_type"

/-- One iteration of the `summary_key_str` loop (utils.rs:167-201), acting
on the accumulated `(name, type_ns)` state. -/
def summary_key_step (ctx : SummaryCtx) (acc : String × Option String)
    (component : DisambiguatedDefPathData) : String × Option String :=
  let name := acc.1
  let type_ns := acc.2
  let name :=
    if strEndsWith name "foreign_contracts" then ""
    else if !(strEndsWith name ".") then name ++ "." else name
  let name := push_component_name component.data name
  let type_ns :=
    match component.data with
    | DefPathData.typeNs sym => some sym
    | _ => type_ns
  if component.disambiguator ≠ 0 then
    let name := name ++ "_"
    match component.data, type_ns with
    | DefPathData.impl, some tns =>
      if tns == "num" && ctx.parentCrateName == "core" then
        (append_mangled_type name ctx.parentType, type_ns)
      else (name ++ tns, type_ns)
    | _, _ => (name ++ toString component.disambiguator, type_ns)
  else (name, type_ns)

/-- `summary_key_str` (utils.rs:164-203): start from the crate name and
run the component loop. -/
def summary_key_str (ctx : SummaryCtx) : String :=
  (ctx.defPath.foldl (summary_key_step ctx) (ctx.crateName, none)).1

/-- One component of the key format exactly as claim C8 words it: a dot,
the component name, and an underscore-prefixed disambiguator appended
whenever the component's disambiguator is nonzero. -/
def claim_key_step (name : String) (c : DisambiguatedDefPathData) : String :=
  let name := name ++ "."
  let name := push_component_name c.data name
  if c.disambiguator ≠ 0 then name ++ "_" ++ toString c.disambiguator
  else name

/-- The key format exactly as claim C8 words it:
`crate.component[.component]*_disambiguator`. -/
def claim_key_format (ctx : SummaryCtx) : String :=
  ctx.defPath.foldl claim_key_step ctx.crateName

/-- The context of a nonzero-disambiguator impl block: `impl Foo` inside
crate `mycrate`. -/
def implCtx : SummaryCtx :=
  { crateName := "mycrate",
    defPath :=
      [{ data := DefPathData.typeNs "Foo", disambiguator := 0 },
       { data := DefPathData.impl, disambiguator := 1 }],
    parentCrateName := "mycrate",
    parentType := MTy.adt "mycrate_Foo" false [[]] [] }

/-- C8 counterexample: for an impl component with nonzero disambiguator,
`summary_key_str` appends the enclosing type namespace string instead of
the underscore-prefixed numeric disambiguator the claim requires, so the
produced key differs from the claimed format. -/
theorem summary_key_impl_disambiguator_cex :
    summary_key_str implCtx = "mycrate.Foo.implement_Foo"
    ∧ claim_key_format implCtx = "mycrate.Foo.implement_1"
    ∧ summary_key_str implCtx ≠ claim_key_format implCtx := by
  refine ⟨by decide, by decide, by decide⟩

/-- The text `push_component_name` appends for a given component kind. -/
def rendered_name (d : DefPathData) : String := push_component_name d ""

theorem push_component_name_append (d : DefPathData) (x : String) :
    push_component_name d x = x ++ rendered_name d := by
  cases d <;> simp [push_component_name, rendered_name]

/-- A string that is nonempty, contains no underscore and does not end in
a dot; the accumulated summary key stays of the shape
`crate.component[.component]*` on such material. -/
def CleanStr (s : String) : Prop :=
  s.data ≠ [] ∧ '_' ∉ s.data ∧ s.data.getLast? ≠ some '.'

instance (s : String) : Decidable (CleanStr s) := by
  unfold CleanStr; infer_instance

theorem strEndsWith_fc_false {s : String} (h : '_' ∉ s.data) :
    strEndsWith s "foreign_contracts" = false := by
  rw [Bool.eq_false_iff]
  intro hsuf
  rw [strEndsWith, List.isSuffixOf_iff_suffix] at hsuf
  exact h (hsuf.subset (by decide))

theorem strEndsWith_dot_false {s : String}
    (hlast : s.data.getLast? ≠ some '.') : strEndsWith s "." = false := by
  rw [Bool.eq_false_iff]
  intro hsuf
  rw [strEndsWith, List.isSuffixOf_iff_suffix] at hsuf
  obtain ⟨u, hu⟩ := hsuf
  apply hlast
  rw [← hu]
  exact List.getLast?_concat u

theorem CleanStr.append_dot {acc r : String} (hacc : CleanStr acc)
    (hr : CleanStr r) : CleanStr (acc ++ "." ++ r) := by
  obtain ⟨ha1, ha2, ha3⟩ := hacc
  obtain ⟨hr1, hr2, hr3⟩ := hr
  refine ⟨?_, ?_, ?_⟩
  · simp [String.data_append]
  · simp [String.data_append, ha2, hr2]
  · rcases hc : r.data.getLast? with _ | c
    · exact absurd (List.getLast?_eq_none_iff.1 hc) hr1
    · have hdata : (acc ++ "." ++ r).data = (acc.data ++ ['.']) ++ r.data := by
        simp [String.data_append]
      rw [hdata, List.getLast?_append, hc]
      have hcne : c ≠ '.' := by
        rw [hc] at hr3
        simpa using hr3
      simpa using hcne

theorem summary_key_step_clean (ctx : SummaryCtx) (acc : String)
    (tns : Option String) (c : DisambiguatedDefPathData)
    (hacc : CleanStr acc) (hc : c.disambiguator = 0) :
    summary_key_step ctx (acc, tns) c =
      (acc ++ "." ++ rendered_name c.data,
       match c.data with
       | DefPathData.typeNs sym => some sym
       | _ => tns) := by
  obtain ⟨h1, h2, h3⟩ := hacc
  unfold summary_key_step
  simp only [strEndsWith_fc_false h2, strEndsWith_dot_false h3, Bool.false_eq_true,
    if_false, Bool.not_false, if_true, hc, ne_eq, not_true_eq_false,
    not_false_eq_true, push_component_name_append]

theorem summary_fold_claim (ctx : SummaryCtx) :
    ∀ (comps : List DisambiguatedDefPathData) (acc : String)
      (tns : Option String),
      CleanStr acc →
      (∀ c ∈ comps, c.disambiguator = 0 ∧ CleanStr (rendered_name c.data)) →
      (comps.foldl (summary_key_step ctx) (acc, tns)).1 =
        comps.foldl claim_key_step acc := by
  intro comps
  induction comps with
  | nil => intro acc tns _ _; rfl
  | cons c rest ih =>
    intro acc tns hacc hcs
    obtain ⟨hd, hcr⟩ := hcs c (List.mem_cons_self c rest)
    rw [List.foldl_cons, List.foldl_cons]
    rw [summary_key_step_clean ctx acc tns c hacc hd]
    have hclaim : claim_key_step acc c = acc ++ "." ++ rendered_name c.data := by
      unfold claim_key_step
      simp [hd, push_component_name_append]
    rw [hclaim]
    exact ih _ _ (hacc.append_dot hcr)
      (fun x hx => hcs x (List.mem_cons_of_mem _ hx))

/-- C8 (amended): `summary_key_str` produces
`crate.component[.component]*` — the crate name followed by the rendered
component names separated by dots (provided the accumulated key stays
clean: nonempty, no underscore, not dot-terminated, so the
`foreign_contracts` reset never fires) — with an underscore-prefixed
numeric disambiguator appended whenever a NON-impl component's
disambiguator is nonzero.  An impl component with nonzero disambiguator
instead appends the enclosing type namespace name; for impls of `core`'s
`num` module it appends the mangled self type; only when no type namespace
is known does it fall back to the numeric disambiguator. -/
theorem summary_key_format_amended :
    (∀ ctx : SummaryCtx, CleanStr ctx.crateName →
        (∀ c ∈ ctx.defPath,
          c.disambiguator = 0 ∧ CleanStr (rendered_name c.data)) →
        summary_key_str ctx = claim_key_format ctx)
    ∧ (∀ (ctx : SummaryCtx) (acc tns : String) (d : Nat),
        CleanStr acc → d ≠ 0 →
        (tns == "num" && ctx.parentCrateName == "core") = false →
        summary_key_step ctx (acc, some tns)
            { data := DefPathData.impl, disambiguator := d } =
          (acc ++ "." ++ "implement" ++ "_" ++ tns, some tns))
    ∧ (∀ (ctx : SummaryCtx) (acc tns : String) (d : Nat),
        CleanStr acc → d ≠ 0 →
        (tns == "num" && ctx.parentCrateName == "core") = true →
        summary_key_step ctx (acc, some tns)
            { data := DefPathData.impl, disambiguator := d } =
          (append_mangled_type (acc ++ "." ++ "implement" ++ "_")
            ctx.parentType, some tns))
    ∧ (∀ (ctx : SummaryCtx) (acc : String) (d : Nat),
        CleanStr acc → d ≠ 0 →
        summary_key_step ctx (acc, none)
            { data := DefPathData.impl, disambiguator := d } =
          (acc ++ "." ++ "implement" ++ "_" ++ toString d, none))
    ∧ (∀ (ctx : SummaryCtx) (acc : String) (tns : Option String)
        (c : DisambiguatedDefPathData),
        CleanStr acc → c.disambiguator ≠ 0 → c.data ≠ DefPathData.impl →
        summary_key_step ctx (acc, tns) c =
          (acc ++ "." ++ rendered_name c.data ++ "_" ++
              toString c.disambiguator,
           match c.data with
           | DefPathData.typeNs sym => some sym
           | _ => tns)) := by
  refine ⟨?_, ?_, ?_, ?_, ?_⟩
  · intro ctx h1 h2
    unfold summary_key_str claim_key_format
    exact summary_fold_claim ctx ctx.defPath ctx.crateName none h1 h2
  · intro ctx acc tns d hacc hd hnc
    obtain ⟨h1, h2, h3⟩ := hacc
    unfold summary_key_step
    simp [strEndsWith_fc_false h2, strEndsWith_dot_false h3, hd, hnc,
      push_component_name]
  · intro ctx acc tns d hacc hd hnc
    obtain ⟨h1, h2, h3⟩ := hacc
    unfold summary_key_step
    simp [strEndsWith_fc_false h2, strEndsWith_dot_false h3, hd, hnc,
      push_component_name]
  · intro ctx acc d hacc hd
    obtain ⟨h1, h2, h3⟩ := hacc
    unfold summary_key_step
    simp [strEndsWith_fc_false h2, strEndsWith_dot_false h3, hd,
      push_component_name]
  · intro ctx acc tns c hacc hd hni
    obtain ⟨h1, h2, h3⟩ := hacc
    obtain ⟨data, d⟩ := c
    simp only at hd hni
    cases data <;>
      first
        | exact absurd rfl hni
        | simp [summary_key_step, strEndsWith_fc_false h2,
            strEndsWith_dot_false h3, hd, rendered_name, push_component_name]

/-- A definition path with no impl components and zero disambiguators. -/
def plainCtx : SummaryCtx :=
  { crateName := "mycrate",
    defPath :=
      [{ data := DefPathData.typeNs "Foo", disambiguator := 0 },
       { data := DefPathData.valueNs "bar", disambiguator := 0 }],
    parentCrateName := "mycrate",
    parentType := MTy.unit }

theorem summary_key_format_amended_witness :
    summary_key_str plainCtx = claim_key_format plainCtx
    ∧ summary_key_str plainCtx = "mycrate.Foo.bar"
    ∧ summary_key_step implCtx ("mycrate.Foo", some "Foo")
        { data := DefPathData.impl, disambiguator := 1 } =
      ("mycrate.Foo.implement_Foo", some "Foo") := by
  refine ⟨summary_key_format_amended.1 plainCtx (by decide) ?_, by decide, ?_⟩
  · intro c hc
    rcases List.mem_cons.1 hc with rfl | hc2
    · exact ⟨rfl, by decide⟩
    · rcases List.mem_cons.1 hc2 with rfl | hc3
      · exact ⟨rfl, by decide⟩
      · cases hc3
  · have h := summary_key_format_amended.2.1 implCtx "mycrate.Foo" "Foo" 1
      (by decide) (by decide) (by decide)
    rw [h]
    decide

/-- A memory-safety diagnostic with primary span 2. -/
def diagD : Diagnostic :=
  { builder := { level := DiagLevel.warning, messages := [some "D"], spans := [2] },
    is_memory_safety := true, cause := DiagnosticCause.memory }

theorem diagnostic_compare_total_order_witness :
    Diagnostic.compare diagA diagC = Ordering.lt
    ∧ Diagnostic.compare diagC diagD = Ordering.lt
    ∧ Diagnostic.compare diagA diagD = Ordering.lt :=
  ⟨by decide, by decide,
    diagnostic_compare_total_order_and_emitted_sorted.2.2.1 diagA diagC diagD
      (by decide) (by decide)⟩
